import Mathlib

/-!
Verification of the scoring / report pipeline of `src/app.py`
(Life Minus Work — Retirement Readiness calculator).

Modelling conventions (shallow embedding):
* Python dicts are modelled as association lists in insertion order
  (`List (String × _)`), looked up with `List.lookup`; CPython dicts
  preserve insertion order and have unique keys, which the call sites
  of this app respect.
* Dynamic JSON-ish Python values are modelled by the inductive `JVal`.
* CPython `round` applied to a float is round-half-to-even.  The float
  mean `sum(vals)/len(vals)` is modelled by the exact rational mean:
  for the app's bounded slider values (0–10, at most 24 ratings) the
  correctly rounded double of the mean rounds to the same integer as
  the exact rational, and exact half-way values are representable, so
  the rational model is faithful.
* Python ints are unbounded and are modelled by `Int` / `Nat`.
-/

namespace LMW

/-- Dynamic (JSON-like) Python value as it flows out of `json.loads` or out
of the literal dictionaries of `app.py`. -/
inductive JVal where
  | jnull : JVal
  | jstr (s : String) : JVal
  | jnum (n : Int) : JVal
  | jlist (xs : List JVal) : JVal
  | jdict (kvs : List (String × JVal)) : JVal

/-- Python `d.get(k, default)` on an association-list dict. -/
def lookupD (kvs : List (String × JVal)) (k : String) (d : JVal) : JVal :=
  (kvs.lookup k).getD d

/- ------------------------------------------------------------------
Scoring Engine, from `src/app.py` lines 202–209:

  def compute_scores(responses: dict) -> dict:
      scores={}
      for t,vals in responses.items():
          scores[t]=int(round(sum(vals)/len(vals))) if vals else 0
      return scores

  def overall(scores: dict) -> int:
      return int(round(sum(scores.values())/max(1,len(scores))))

CPython `round` on floats is round-half-to-even.
------------------------------------------------------------------ -/

/-- Round-half-to-even on rationals: the behaviour of CPython `round`
on a float (model of `int(round(x))` in `compute_scores` / `overall`). -/
def roundHalfEven (q : ℚ) : ℤ :=
  if q - ⌊q⌋ < 1 / 2 then ⌊q⌋
  else if 1 / 2 < q - ⌊q⌋ then ⌊q⌋ + 1
  else if ⌊q⌋ % 2 = 0 then ⌊q⌋ else ⌊q⌋ + 1

/-- Embedding of `compute_scores` (`src/app.py` lines 202–206).  The
response dict is an association list Theme → ratings in insertion order. -/
def compute_scores (responses : List (String × List ℤ)) : List (String × ℤ) :=
  responses.map fun p =>
    (p.1, if p.2 = [] then 0 else roundHalfEven ((p.2.sum : ℚ) / p.2.length))

/-- Embedding of `overall` (`src/app.py` lines 208–209). -/
def overall (scores : List (String × ℤ)) : ℤ :=
  roundHalfEven (((scores.map Prod.snd).sum : ℚ) / (max 1 scores.length))

/-- Modelled from the spec: the arithmetic mean of a list of integers. -/
def listMean (l : List ℤ) : ℚ := (l.sum : ℚ) / l.length

/-- Modelled from the spec: round-half-up (halves are rounded towards the
larger integer), the rounding rule claim C1 asserts. -/
def specRoundHalfUp (q : ℚ) : ℤ := ⌊q + 1 / 2⌋

/-- Modelled from the spec, claim C1 as stated: per-theme score as
round-half-up of the mean, 0 for an empty rating list. -/
def specThemeScoreHalfUp (vals : List ℤ) : ℤ :=
  if vals = [] then 0 else specRoundHalfUp (listMean vals)

/-- Modelled from the spec, claim C1 as stated: the whole ScoreSet. -/
def specScoreSetHalfUp (responses : List (String × List ℤ)) : List (String × ℤ) :=
  responses.map fun p => (p.1, specThemeScoreHalfUp p.2)

/-- Modelled from the spec, claim C1 as stated: overall score as
round-half-up of the mean of the per-theme scores, 0 for an empty set. -/
def specOverallHalfUp (scores : List (String × ℤ)) : ℤ :=
  if scores = [] then 0 else specRoundHalfUp (listMean (scores.map Prod.snd))

/-- Modelled from the spec, claim C1 amended: per-theme score as
round-half-to-even of the mean, 0 for an empty rating list. -/
def specThemeScoreHalfEven (vals : List ℤ) : ℤ :=
  if vals = [] then 0 else roundHalfEven (listMean vals)

/-- Modelled from the spec, claim C1 amended: the whole ScoreSet. -/
def specScoreSetHalfEven (responses : List (String × List ℤ)) : List (String × ℤ) :=
  responses.map fun p => (p.1, specThemeScoreHalfEven p.2)

/-- Modelled from the spec, claim C1 amended: overall score as
round-half-to-even of the mean of the per-theme scores, 0 if empty. -/
def specOverallHalfEven (scores : List (String × ℤ)) : ℤ :=
  if scores = [] then 0 else roundHalfEven (listMean (scores.map Prod.snd))

/-- Claim C1, counterexample: for the single-theme rating set
T ↦ [0, 1] the mean is 1/2; round-half-up gives 1, but `compute_scores`
(CPython `round`, half-to-even) gives 0.  So the Scoring Engine does not
implement round-half-up. -/
theorem C1_counterexample :
    compute_scores [("T", [0, 1])] ≠ specScoreSetHalfUp [("T", [0, 1])] := by
  have h0 : ⌊(1 : ℚ) / 2⌋ = 0 := by norm_num
  have h1 : ⌊(1 : ℚ) / 2 + 1 / 2⌋ = 1 := by norm_num
  simp only [compute_scores, specScoreSetHalfUp, specThemeScoreHalfUp, specRoundHalfUp,
    roundHalfEven, listMean, List.map_cons, List.map_nil, ne_eq, List.cons.injEq,
    Prod.mk.injEq]
  norm_num [h0, h1]
  decide

/-- Claim C1 (amended): per-theme score is the round-half-to-even of the
mean of the theme's ratings (0 if the rating list is empty), and the
overall score is the round-half-to-even of the mean of the per-theme
scores (0 if the ScoreSet is empty). -/
theorem C1_amended :
    (∀ responses, compute_scores responses = specScoreSetHalfEven responses) ∧
      (∀ scores, overall scores = specOverallHalfEven scores) := by
  constructor
  · intro responses
    rfl
  · intro scores
    by_cases h : scores = []
    · subst h
      have h0 : ⌊(0 : ℚ)⌋ = 0 := by norm_num
      simp [overall, specOverallHalfEven, roundHalfEven, h0]
    · have hlen : 1 ≤ scores.length := by
        cases scores with
        | nil => exact absurd rfl h
        | cons a l => simp
      unfold overall specOverallHalfEven listMean
      rw [if_neg h, Nat.max_eq_right hlen, List.length_map]

lemma roundHalfEven_nonneg {q : ℚ} (h : 0 ≤ q) : 0 ≤ roundHalfEven q := by
  have hf : (0 : ℤ) ≤ ⌊q⌋ := Int.floor_nonneg.mpr h
  unfold roundHalfEven
  split_ifs <;> omega

lemma roundHalfEven_le {q : ℚ} {M : ℤ} (h : q ≤ (M : ℚ)) : roundHalfEven q ≤ M := by
  have hfM : ⌊q⌋ ≤ M := by
    have := Int.floor_le_floor h
    simpa [Int.floor_intCast] using this
  unfold roundHalfEven
  split_ifs with h1 h2 h3
  · exact hfM
  · have hq : (⌊q⌋ : ℚ) + 1 / 2 < q := by linarith
    have hlt : (⌊q⌋ : ℚ) < (M : ℚ) := by linarith
    have : ⌊q⌋ < M := by exact_mod_cast hlt
    omega
  · exact hfM
  · have he : q - ⌊q⌋ = 1 / 2 := le_antisymm (not_lt.mp h2) (not_lt.mp h1)
    have hlt : (⌊q⌋ : ℚ) < (M : ℚ) := by linarith
    have : ⌊q⌋ < M := by exact_mod_cast hlt
    omega

lemma meanQ_bounds {l : List ℤ} {M : ℤ} (hM : 0 ≤ M) (h : ∀ v ∈ l, 0 ≤ v ∧ v ≤ M) :
    0 ≤ (l.sum : ℚ) / l.length ∧ (l.sum : ℚ) / l.length ≤ (M : ℚ) := by
  rcases eq_or_ne l [] with rfl | hne
  · norm_num
    exact_mod_cast hM
  · have hpos : 0 < (l.length : ℚ) := by exact_mod_cast List.length_pos.mpr hne
    have hsnn : (0 : ℤ) ≤ l.sum := List.sum_nonneg fun v hv => (h v hv).1
    have hsum : l.sum ≤ (l.length : ℤ) * M := by
      have h2 := List.sum_le_card_nsmul l M fun x hx => (h x hx).2
      simpa [nsmul_eq_mul] using h2
    constructor
    · exact div_nonneg (by exact_mod_cast hsnn) (le_of_lt hpos)
    · rw [div_le_iff₀ hpos, mul_comm]
      exact_mod_cast hsum

/-- Claim C8: for ratings within the configured bound, `compute_scores`
returns exactly one entry per theme of the RatingSet (same themes, same
order), every per-theme score lies within the bound, and so does the
overall score. -/
theorem C8_scoreset_invariant :
    ∀ (M : ℤ), 0 ≤ M →
    ∀ responses : List (String × List ℤ),
      (∀ p ∈ responses, ∀ v ∈ p.2, 0 ≤ v ∧ v ≤ M) →
      ((compute_scores responses).map Prod.fst = responses.map Prod.fst) ∧
        (∀ q ∈ compute_scores responses, 0 ≤ q.2 ∧ q.2 ≤ M) ∧
        (0 ≤ overall (compute_scores responses) ∧
          overall (compute_scores responses) ≤ M) := by
  intro M hM responses hb
  have hval : ∀ q ∈ compute_scores responses, 0 ≤ q.2 ∧ q.2 ≤ M := by
    intro q hq
    simp only [compute_scores, List.mem_map] at hq
    obtain ⟨p, hp, rfl⟩ := hq
    dsimp only
    by_cases hnil : p.2 = []
    · rw [if_pos hnil]
      exact ⟨le_refl 0, hM⟩
    · rw [if_neg hnil]
      have hmb := meanQ_bounds hM (hb p hp)
      exact ⟨roundHalfEven_nonneg hmb.1, roundHalfEven_le hmb.2⟩
  have hsnd : ∀ v ∈ (compute_scores responses).map Prod.snd, 0 ≤ v ∧ v ≤ M := by
    intro v hv
    simp only [List.mem_map] at hv
    obtain ⟨q, hq, rfl⟩ := hv
    exact hval q hq
  refine ⟨?_, hval, ?_, ?_⟩
  · simp [compute_scores]
  · apply roundHalfEven_nonneg
    apply div_nonneg
    · exact_mod_cast List.sum_nonneg fun v hv => (hsnd v hv).1
    · exact_mod_cast Nat.zero_le _
  · apply roundHalfEven_le
    have hpos : 0 < ((max 1 (compute_scores responses).length : ℕ) : ℚ) := by
      have : 0 < max 1 (compute_scores responses).length :=
        Nat.lt_of_lt_of_le Nat.zero_lt_one (Nat.le_max_left 1 _)
      exact_mod_cast this
    rw [div_le_iff₀ hpos]
    have hsum : ((compute_scores responses).map Prod.snd).sum ≤
        (((compute_scores responses).map Prod.snd).length : ℤ) * M := by
      have h2 := List.sum_le_card_nsmul ((compute_scores responses).map Prod.snd)
        M fun x hx => (hsnd x hx).2
      simpa [nsmul_eq_mul] using h2
    have hlen : ((compute_scores responses).map Prod.snd).length ≤
        max 1 (compute_scores responses).length := by
      simp [List.length_map]
    calc (((compute_scores responses).map Prod.snd).sum : ℚ)
        ≤ (((compute_scores responses).map Prod.snd).length : ℚ) * M := by
          exact_mod_cast hsum
      _ ≤ ((max 1 (compute_scores responses).length : ℕ) : ℚ) * M := by
          apply mul_le_mul_of_nonneg_right _ (by exact_mod_cast hM)
          exact_mod_cast hlen
      _ = (M : ℚ) * ((max 1 (compute_scores responses).length : ℕ) : ℚ) := mul_comm _ _

/-- Witness for claim C8 at a concrete rating set within bound 10. -/
theorem C8_witness :
    ((compute_scores [("A", [5, 7]), ("B", [9])]).map Prod.fst =
        [("A", ([5, 7] : List ℤ)), ("B", [9])].map Prod.fst) ∧
      (∀ q ∈ compute_scores [("A", [5, 7]), ("B", [9])], 0 ≤ q.2 ∧ q.2 ≤ 10) ∧
      (0 ≤ overall (compute_scores [("A", [5, 7]), ("B", [9])]) ∧
        overall (compute_scores [("A", [5, 7]), ("B", [9])]) ≤ 10) :=
  C8_scoreset_invariant 10 (by decide) [("A", [5, 7]), ("B", [9])] (by decide)

/- ------------------------------------------------------------------
Ranking, from `src/app.py`:

  line 232 (build_mini_copy):
    top3 = [k for k,_ in sorted(scores.items(), key=lambda kv: kv[1], reverse=True)[:3]]
  line 259 (rule_based_full_report):
    top = sorted(scores.items(), key=lambda kv: kv[1], reverse=True)
    low = sorted(scores.items(), key=lambda kv: kv[1])

Python `sorted` is guaranteed stable (also with `reverse=True`, which
reverses the comparison, not the list).  A stable sort for a total
preorder is extensionally insertion sort that inserts each element
before the first already-placed element it does not have to follow:
`List.insertionSort r` with `r a b := b.2 ≤ a.2` places `a` before `b`
exactly when `a`'s score is ≥ `b`'s, so among equal scores earlier input
elements stay first.
------------------------------------------------------------------ -/

/-- Comparison used by the descending ranking: `a` may precede `b`. -/
def scoreGe (a b : String × ℤ) : Prop := b.2 ≤ a.2

instance : DecidableRel scoreGe := fun a b => Int.decLe b.2 a.2

instance : IsTotal (String × ℤ) scoreGe := ⟨fun a b => le_total b.2 a.2⟩

instance : IsTrans (String × ℤ) scoreGe := ⟨fun _ _ _ hab hbc => le_trans hbc hab⟩

/-- Embedding of `sorted(scores.items(), key=lambda kv: kv[1], reverse=True)`. -/
def sortedByScoreDesc (l : List (String × ℤ)) : List (String × ℤ) :=
  List.insertionSort scoreGe l

/-- Comparison used by the ascending ranking of `low` in
`rule_based_full_report`. -/
def scoreLe (a b : String × ℤ) : Prop := a.2 ≤ b.2

instance : DecidableRel scoreLe := fun a b => Int.decLe a.2 b.2

/-- Embedding of `sorted(scores.items(), key=lambda kv: kv[1])`. -/
def sortedByScoreAsc (l : List (String × ℤ)) : List (String × ℤ) :=
  List.insertionSort scoreLe l

/-- Same descending comparison, on entries tagged with their original
position; the tag is ignored by the comparison, exactly as Python's
`key=lambda kv: kv[1]` ignores everything but the score. -/
def scoreGeIdx (a b : ℕ × (String × ℤ)) : Prop := b.2.2 ≤ a.2.2

instance : DecidableRel scoreGeIdx := fun a b => Int.decLe b.2.2 a.2.2

/-- Descending stable sort of position-tagged entries. -/
def sortDescIdx (l : List (ℕ × (String × ℤ))) : List (ℕ × (String × ℤ)) :=
  List.insertionSort scoreGeIdx l

/-- Tag each entry with its position, starting at `i`. -/
def idxFrom : ℕ → List (String × ℤ) → List (ℕ × (String × ℤ))
  | _, [] => []
  | i, x :: xs => (i, x) :: idxFrom (i + 1) xs

/-- Strict "must come first" order of the spec's ranking: higher score
first, ties broken by the original (declaration) position. -/
def lexBefore (p q : ℕ × (String × ℤ)) : Prop :=
  q.2.2 < p.2.2 ∨ (p.2.2 = q.2.2 ∧ p.1 < q.1)

instance (p q : ℕ × (String × ℤ)) : Decidable (lexBefore p q) := by
  unfold lexBefore
  infer_instance

instance : IsAntisymm (ℕ × (String × ℤ)) lexBefore :=
  ⟨fun _ _ hab hba => by
    exfalso
    rcases hab with h1 | ⟨e1, l1⟩ <;> rcases hba with h2 | ⟨e2, l2⟩ <;> omega⟩

lemma idxFrom_map_snd : ∀ (i : ℕ) (l : List (String × ℤ)),
    (idxFrom i l).map Prod.snd = l
  | _, [] => rfl
  | i, x :: xs => by simp [idxFrom, idxFrom_map_snd (i + 1) xs]

lemma idxFrom_mem_ge : ∀ (i : ℕ) (l : List (String × ℤ))
    (p : ℕ × (String × ℤ)), p ∈ idxFrom i l → i ≤ p.1 := by
  intro i l
  induction l generalizing i with
  | nil => intro p hp; cases hp
  | cons x xs ih =>
    intro p hp
    rcases List.mem_cons.mp hp with rfl | hp'
    · exact le_refl i
    · exact le_trans (Nat.le_succ i) (ih (i + 1) p hp')

lemma idxFrom_pairwise : ∀ (i : ℕ) (l : List (String × ℤ)),
    (idxFrom i l).Pairwise (fun p q => p.1 < q.1) := by
  intro i l
  induction l generalizing i with
  | nil => exact List.Pairwise.nil
  | cons x xs ih =>
    apply List.Pairwise.cons _ (ih (i + 1))
    intro q hq
    exact Nat.lt_of_lt_of_le (Nat.lt_succ_self i) (idxFrom_mem_ge (i + 1) xs q hq)

lemma sortDescIdx_map_snd (l : List (ℕ × (String × ℤ))) :
    (sortDescIdx l).map Prod.snd = sortedByScoreDesc (l.map Prod.snd) :=
  List.map_insertionSort scoreGeIdx scoreGe Prod.snd l fun _ _ _ _ => Iff.rfl

lemma orderedInsert_pairwise_lex (x : ℕ × (String × ℤ)) :
    ∀ l : List (ℕ × (String × ℤ)), l.Pairwise lexBefore → (∀ y ∈ l, x.1 < y.1) →
      (List.orderedInsert scoreGeIdx x l).Pairwise lexBefore := by
  intro l
  induction l with
  | nil =>
    intro _ _
    simp [List.orderedInsert]
  | cons y ys ih =>
    intro hp hidx
    rcases List.pairwise_cons.mp hp with ⟨hy, hys⟩
    rw [List.orderedInsert]
    by_cases hxy : scoreGeIdx x y
    · rw [if_pos hxy]
      apply List.Pairwise.cons _ hp
      intro z hz
      unfold scoreGeIdx at hxy
      rcases List.mem_cons.mp hz with rfl | hz'
      · by_cases hlt : z.2.2 < x.2.2
        · exact Or.inl hlt
        · exact Or.inr ⟨by omega, hidx z hz⟩
      · have hyz := hy z hz'
        have hidz := hidx z (List.mem_cons_of_mem _ hz')
        by_cases hlt : z.2.2 < x.2.2
        · exact Or.inl hlt
        · refine Or.inr ⟨?_, hidz⟩
          unfold lexBefore at hyz
          rcases hyz with h | ⟨h, _⟩ <;> omega
    · rw [if_neg hxy]
      apply List.Pairwise.cons
      · intro z hz
        rcases (List.mem_orderedInsert scoreGeIdx).mp hz with rfl | hz''
        · unfold scoreGeIdx at hxy
          exact Or.inl (by omega)
        · exact hy z hz''
      · exact ih hys fun q hq => hidx q (List.mem_cons_of_mem _ hq)

lemma sortDescIdx_pairwise_lex :
    ∀ l : List (ℕ × (String × ℤ)), l.Pairwise (fun p q => p.1 < q.1) →
      (sortDescIdx l).Pairwise lexBefore := by
  intro l
  induction l with
  | nil =>
    intro _
    exact List.Pairwise.nil
  | cons x xs ih =>
    intro hp
    rcases List.pairwise_cons.mp hp with ⟨hx, hxs⟩
    apply orderedInsert_pairwise_lex x (sortDescIdx xs) (ih hxs)
    intro y hy
    exact hx y ((List.perm_insertionSort scoreGeIdx xs).mem_iff.mp hy)

/-- Claim C2: the ranking is the ScoreSet sorted by score descending,
stable (ties keep the original declaration order): it is a permutation
of the input, pairwise descending, and — tagging each entry with its
input position — pairwise strictly ordered by (score desc, position
asc).  That strict order determines the output uniquely, so repeated
calls (and any stable descending sort, such as CPython's timsort)
return the same ordering. -/
theorem C2_ranking_stable_desc :
    ∀ scores : List (String × ℤ),
      (sortedByScoreDesc scores).Perm scores ∧
        (sortedByScoreDesc scores).Pairwise (fun a b => b.2 ≤ a.2) ∧
        (sortDescIdx (idxFrom 0 scores)).map Prod.snd = sortedByScoreDesc scores ∧
        (sortDescIdx (idxFrom 0 scores)).Pairwise lexBefore ∧
        (∀ l, l.Perm (idxFrom 0 scores) → l.Pairwise lexBefore →
          l = sortDescIdx (idxFrom 0 scores)) := by
  intro scores
  refine ⟨List.perm_insertionSort scoreGe scores,
    List.sorted_insertionSort scoreGe scores, ?_, ?_, ?_⟩
  · rw [sortDescIdx_map_snd, idxFrom_map_snd]
  · exact sortDescIdx_pairwise_lex _ (idxFrom_pairwise 0 scores)
  · intro l hperm hpl
    exact List.eq_of_perm_of_sorted
      (hperm.trans (List.perm_insertionSort scoreGeIdx _).symm) hpl
      (sortDescIdx_pairwise_lex _ (idxFrom_pairwise 0 scores))

/-- Witness for claim C2: on the ScoreSet A ↦ 3, B ↦ 5 the unique stable
descending ordering is B, A. -/
theorem C2_witness :
    ([(1, ("B", (5 : ℤ))), (0, ("A", 3))] : List (ℕ × (String × ℤ))) =
      sortDescIdx (idxFrom 0 [("A", 3), ("B", 5)]) :=
  (C2_ranking_stable_desc [("A", 3), ("B", 5)]).2.2.2.2
    [(1, ("B", 5)), (0, ("A", 3))] (by decide) (by decide)

/- ------------------------------------------------------------------
normalize_report, from `src/app.py` lines 344–372:

  defaults = { 11 scalar keys ↦ "", 11 list keys ↦ [], "theme_snapshot" ↦ dict }
  out = defaults.copy()
  if isinstance(data, dict): out.update(only keys already in out)
  for k in list keys:
      v = out.get(k, [])
      if isinstance(v, str): out[k] = [v]
      elif isinstance(v, (list, tuple)): out[k] = list(v)
      else: out[k] = []
  for k in scalar keys:
      if out.get(k) is None: out[k] = ""
  ts = out.get("theme_snapshot"); if not dict: ts = ...
  out["theme_snapshot"] = dict with str(key), int(v) for numeric v

The three loops touch pairwise disjoint key sets, so the whole function
is a per-key transformation of `defaults.copy()+update`; the embedding
computes it key by key in the insertion order of `defaults`.  `str(k)`
on a string key and `int(v)` on an int value are identities, and no
float can reach this code in the model (the fallback dict carries ints
and the claims' inputs carry ints), so the snapshot comprehension is the
identity on dict values.
------------------------------------------------------------------ -/

/-- The list-typed keys, in the order of the loop at line 357. -/
def listKeys : List String :=
  ["top_themes", "signature_strengths", "energizers", "drainers", "hidden_tensions",
   "actions", "if_then", "one_week_plan", "keep_in_view", "signature_week",
   "tiny_progress_tracker"]

/-- The scalar keys, in the order of the loop at line 364. -/
def scalarKeys : List String :=
  ["archetype", "core_need", "signature_metaphor", "signature_sentence",
   "from_your_words", "what_this_says", "insights", "why_now", "future_snapshot",
   "watchout", "balancing_opportunity"]

/-- Keys of `defaults`, in the insertion order of the source dict. -/
def allKeys : List String :=
  ["archetype", "core_need", "signature_metaphor", "signature_sentence",
   "top_themes", "theme_snapshot", "from_your_words", "what_this_says",
   "insights", "why_now", "future_snapshot",
   "signature_strengths", "energizers", "drainers", "hidden_tensions",
   "watchout", "actions", "if_then", "one_week_plan",
   "balancing_opportunity", "keep_in_view", "signature_week", "tiny_progress_tracker"]

/-- Default value of a key in `defaults`. -/
def defaultVal (k : String) : JVal :=
  if k ∈ listKeys then .jlist []
  else if k = "theme_snapshot" then .jdict []
  else .jstr ""

/-- Body of the list-key loop (line 359–362). -/
def coerceList : JVal → JVal
  | .jstr s => .jlist [.jstr s]
  | .jlist xs => .jlist xs
  | _ => .jlist []

/-- Body of the scalar-key loop (line 367): only `None` is replaced. -/
def coerceScalar : JVal → JVal
  | .jnull => .jstr ""
  | v => v

/-- The theme_snapshot fix-up (lines 369–371); identity on dicts in this
model (string keys, int values stay as they are). -/
def coerceSnapshot : JVal → JVal
  | .jdict kvs => .jdict kvs
  | _ => .jdict []

/-- Per-key composition of the three loops, in source order. -/
def normField (k : String) (v : JVal) : JVal :=
  let v1 := if k ∈ listKeys then coerceList v else v
  let v2 := if k ∈ scalarKeys then coerceScalar v1 else v1
  if k = "theme_snapshot" then coerceSnapshot v2 else v2

/-- Embedding of `normalize_report` (`src/app.py` lines 344–372). -/
def normalize_report (data : List (String × JVal)) : List (String × JVal) :=
  allKeys.map fun k => (k, normField k (lookupD data k (defaultVal k)))

lemma lookup_map_keys (g : String → JVal) :
    ∀ (ks : List String) (k : String), k ∈ ks →
      (ks.map fun k₀ => (k₀, g k₀)).lookup k = some (g k) := by
  intro ks
  induction ks with
  | nil => intro k hk; cases hk
  | cons a as ih =>
    intro k hk
    by_cases hak : k = a
    · subst hak
      simp [List.lookup]
    · have hb : (k == a) = false := beq_false_of_ne hak
      have hk2 : k ∈ as := by
        rcases List.mem_cons.mp hk with h | h
        · exact absurd h hak
        · exact h
      simp [List.lookup, hb, ih k hk2]

lemma lookup_map_keys_none (g : String → JVal) :
    ∀ (ks : List String) (k : String), k ∉ ks →
      (ks.map fun k₀ => (k₀, g k₀)).lookup k = none := by
  intro ks
  induction ks with
  | nil => intro k _; rfl
  | cons a as ih =>
    intro k hk
    have hak : k ≠ a := fun h => hk (h ▸ List.mem_cons_self a as)
    have hb : (k == a) = false := beq_false_of_ne hak
    have hk2 : k ∉ as := fun h => hk (List.mem_cons_of_mem a h)
    simp [List.lookup, hb, ih k hk2]

lemma lookup_some_of_mem_keys :
    ∀ (l : List (String × JVal)) (k : String), k ∈ l.map Prod.fst →
      ∃ v, l.lookup k = some v := by
  intro l
  induction l with
  | nil => intro k hk; cases hk
  | cons p ps ih =>
    intro k hk
    cases p with
    | mk a b =>
      by_cases hak : k = a
      · subst hak
        exact ⟨b, by simp [List.lookup]⟩
      · have hb : (k == a) = false := beq_false_of_ne hak
        simp only [List.map_cons] at hk
        have hk2 : k ∈ ps.map Prod.fst := by
          rcases List.mem_cons.mp hk with h | h
          · exact absurd h hak
          · exact h
        obtain ⟨v, hv⟩ := ih k hk2
        exact ⟨v, by simp [List.lookup, hb, hv]⟩

lemma lookup_mem :
    ∀ {l : List (String × JVal)} {k : String} {v : JVal},
      l.lookup k = some v → (k, v) ∈ l := by
  intro l
  induction l with
  | nil => intro k v h; cases h
  | cons p ps ih =>
    intro k v h
    cases p with
    | mk a b =>
      by_cases hak : k = a
      · subst hak
        simp [List.lookup] at h
        subst h
        exact List.mem_cons_self _ _
      · have hb : (k == a) = false := beq_false_of_ne hak
        simp [List.lookup, hb] at h
        exact List.mem_cons_of_mem _ (ih h)

lemma lookup_none_of_not_mem_keys :
    ∀ (l : List (String × JVal)) (k : String), k ∉ l.map Prod.fst →
      l.lookup k = none := by
  intro l
  induction l with
  | nil => intro k _; rfl
  | cons p ps ih =>
    intro k hk
    cases p with
    | mk a b =>
      have hak : k ≠ a := fun h => hk (by simp [h])
      have hb : (k == a) = false := beq_false_of_ne hak
      have hk2 : k ∉ ps.map Prod.fst := fun h => hk (by simp [h])
      simp [List.lookup, hb, ih k hk2]

lemma key_kinds : ∀ k ∈ allKeys,
    k ∈ listKeys ∨ k ∈ scalarKeys ∨ k = "theme_snapshot" := by decide

lemma listKeys_disjoint : ∀ k ∈ listKeys,
    k ∉ scalarKeys ∧ k ≠ "theme_snapshot" := by decide

lemma scalarKeys_disjoint : ∀ k ∈ scalarKeys,
    k ∉ listKeys ∧ k ≠ "theme_snapshot" := by decide

lemma listKeys_sub : ∀ k ∈ listKeys, k ∈ allKeys := by decide

lemma scalarKeys_sub : ∀ k ∈ scalarKeys, k ∈ allKeys := by decide

lemma normField_of_list {k : String} (hk : k ∈ listKeys) (v : JVal) :
    normField k v = coerceList v := by
  have h1 := (listKeys_disjoint k hk).1
  have h2 := (listKeys_disjoint k hk).2
  simp [normField, hk, h1, h2]

lemma normField_of_scalar {k : String} (hk : k ∈ scalarKeys) (v : JVal) :
    normField k v = coerceScalar v := by
  have h1 := (scalarKeys_disjoint k hk).1
  have h2 := (scalarKeys_disjoint k hk).2
  simp [normField, hk, h1, h2]

lemma normField_snapshot (v : JVal) :
    normField "theme_snapshot" v = coerceSnapshot v := by
  have h1 : "theme_snapshot" ∉ listKeys := by decide
  have h2 : "theme_snapshot" ∉ scalarKeys := by decide
  simp [normField, h1, h2]

lemma normalize_lookup (data : List (String × JVal)) {k : String}
    (hk : k ∈ allKeys) :
    (normalize_report data).lookup k =
      some (normField k (lookupD data k (defaultVal k))) :=
  lookup_map_keys _ allKeys k hk

lemma normalize_lookup_none (data : List (String × JVal)) {k : String}
    (hk : k ∉ allKeys) :
    (normalize_report data).lookup k = none :=
  lookup_map_keys_none _ allKeys k hk

/-- Claim C3, counterexample: a scalar field present with a wrong
(non-null) type is passed through unchanged, not coerced to the empty
string, and a list field present as a string is wrapped into a
one-element list, not replaced by the empty list. -/
theorem C3_counterexample :
    (normalize_report [("archetype", JVal.jnum 5)]).lookup "archetype" ≠
        some (JVal.jstr "") ∧
      (normalize_report [("actions", JVal.jstr "do it")]).lookup "actions" ≠
        some (JVal.jlist []) := by
  constructor
  · have h : (normalize_report [("archetype", JVal.jnum 5)]).lookup "archetype" =
        some (JVal.jnum 5) := rfl
    rw [h]
    intro hc
    exact JVal.noConfusion (Option.some.inj hc)
  · have h : (normalize_report [("actions", JVal.jstr "do it")]).lookup "actions" =
        some (JVal.jlist [JVal.jstr "do it"]) := rfl
    rw [h]
    intro hc
    have h2 := JVal.jlist.inj (Option.some.inj hc)
    exact List.noConfusion h2

/-- Claim C3 (amended): `normalize_report` always returns a record with
exactly the expected keys (in the defaults order) and no null value;
every scalar field that was absent or null becomes the empty string
(wrong-typed non-null scalar values pass through unchanged); every list
field that was absent, or present with a non-string non-list value,
becomes the empty list, while a string value becomes the one-element
list holding it. -/
theorem C3_normalization_amended :
    ∀ data : List (String × JVal),
      ((normalize_report data).map Prod.fst = allKeys) ∧
        (∀ p ∈ normalize_report data, p.2 ≠ JVal.jnull) ∧
        (∀ k ∈ scalarKeys,
          (data.lookup k = none ∨ data.lookup k = some JVal.jnull) →
          (normalize_report data).lookup k = some (JVal.jstr "")) ∧
        (∀ k ∈ listKeys,
          (data.lookup k = none ∨
            ∃ v, data.lookup k = some v ∧ (∀ s, v ≠ JVal.jstr s) ∧
              (∀ xs, v ≠ JVal.jlist xs)) →
          (normalize_report data).lookup k = some (JVal.jlist [])) ∧
        (∀ k ∈ listKeys, ∀ s, data.lookup k = some (JVal.jstr s) →
          (normalize_report data).lookup k = some (JVal.jlist [JVal.jstr s])) := by
  intro data
  refine ⟨?_, ?_, ?_, ?_, ?_⟩
  · simp only [normalize_report, List.map_map]
    exact List.map_id allKeys
  · intro p hp
    simp only [normalize_report, List.mem_map] at hp
    obtain ⟨k, hk, rfl⟩ := hp
    rcases key_kinds k hk with hkl | hks | rfl
    · rw [normField_of_list hkl]
      cases lookupD data k (defaultVal k) <;> simp [coerceList]
    · rw [normField_of_scalar hks]
      cases lookupD data k (defaultVal k) <;> simp [coerceScalar]
    · rw [normField_snapshot]
      cases lookupD data "theme_snapshot" (defaultVal "theme_snapshot") <;>
        simp [coerceSnapshot]
  · intro k hks hd
    rw [normalize_lookup data (scalarKeys_sub k hks), normField_of_scalar hks]
    rcases hd with hd | hd
    · rw [lookupD, hd, Option.getD_none]
      rw [defaultVal, if_neg (scalarKeys_disjoint k hks).1,
        if_neg (scalarKeys_disjoint k hks).2]
      rfl
    · rw [lookupD, hd, Option.getD_some]
      rfl
  · intro k hkl hd
    rw [normalize_lookup data (listKeys_sub k hkl), normField_of_list hkl]
    rcases hd with hd | ⟨v, hd, hvs, hvl⟩
    · rw [lookupD, hd, Option.getD_none, defaultVal, if_pos hkl]
      rfl
    · rw [lookupD, hd, Option.getD_some]
      cases v with
      | jnull => rfl
      | jstr s => exact absurd rfl (hvs s)
      | jnum n => rfl
      | jlist xs => exact absurd rfl (hvl xs)
      | jdict kvs => rfl
  · intro k hkl s hd
    rw [normalize_lookup data (listKeys_sub k hkl), normField_of_list hkl,
      lookupD, hd, Option.getD_some]
    rfl

/-- Witness for claim C3: normalizing the empty record gives the empty
string at the scalar key archetype and the empty list at the list key
actions. -/
theorem C3_witness :
    (normalize_report []).lookup "archetype" = some (JVal.jstr "") ∧
      (normalize_report []).lookup "actions" = some (JVal.jlist []) :=
  ⟨(C3_normalization_amended []).2.2.1 "archetype" (by decide) (Or.inl rfl),
    (C3_normalization_amended []).2.2.2.1 "actions" (by decide) (Or.inl rfl)⟩

/-- Checks that a JVal is a string. -/
def isStrB : JVal → Bool
  | .jstr _ => true
  | _ => false

/-- Checks that a JVal is a list. -/
def isListB : JVal → Bool
  | .jlist _ => true
  | _ => false

/-- Checks that a JVal is a dict whose values are all ints. -/
def isIntDictB : JVal → Bool
  | .jdict kvs => kvs.all fun p =>
      match p.2 with
      | .jnum _ => true
      | _ => false
  | _ => false

/-- Field of a fully well-typed ReportContent record: strings at scalar
keys, lists at list keys, an int-valued dict at theme_snapshot. -/
def wellTypedField (k : String) (v : JVal) : Prop :=
  (k ∈ scalarKeys → isStrB v = true) ∧ (k ∈ listKeys → isListB v = true) ∧
    (k = "theme_snapshot" → isIntDictB v = true)

instance (k : String) (v : JVal) : Decidable (wellTypedField k v) := by
  unfold wellTypedField
  infer_instance

/-- Claim C4: on a record carrying exactly the expected keys, each with a
correctly typed value, `normalize_report` is the identity transform
(extensionally, as a key-value mapping). -/
theorem C4_normalize_identity :
    ∀ data : List (String × JVal),
      (data.map Prod.fst).Perm allKeys →
      (∀ p ∈ data, wellTypedField p.1 p.2) →
      ∀ k, (normalize_report data).lookup k = data.lookup k := by
  intro data hperm hwt k
  by_cases hk : k ∈ allKeys
  · rw [normalize_lookup data hk]
    have hkd : k ∈ data.map Prod.fst := hperm.mem_iff.mpr hk
    obtain ⟨v, hv⟩ := lookup_some_of_mem_keys data k hkd
    have hw := hwt (k, v) (lookup_mem hv)
    rw [hv, lookupD, hv, Option.getD_some]
    rcases key_kinds k hk with hkl | hks | rfl
    · rw [normField_of_list hkl]
      have := hw.2.1 hkl
      cases v with
      | jlist xs => rfl
      | jnull => simp [isListB] at this
      | jstr s => simp [isListB] at this
      | jnum n => simp [isListB] at this
      | jdict kvs => simp [isListB] at this
    · rw [normField_of_scalar hks]
      have := hw.1 hks
      cases v with
      | jstr s => rfl
      | jnull => simp [isStrB] at this
      | jnum n => simp [isStrB] at this
      | jlist xs => simp [isStrB] at this
      | jdict kvs => simp [isStrB] at this
    · rw [normField_snapshot]
      have := hw.2.2 rfl
      cases v with
      | jdict kvs => rfl
      | jnull => simp [isIntDictB] at this
      | jstr s => simp [isIntDictB] at this
      | jnum n => simp [isIntDictB] at this
      | jlist xs => simp [isIntDictB] at this
  · rw [normalize_lookup_none data hk,
      lookup_none_of_not_mem_keys data k (fun hc => hk (hperm.mem_iff.mp hc))]

/-- Fully typed concrete record used as the C4 witness input. -/
def wtRecord : List (String × JVal) :=
  [("archetype", .jstr "a"), ("core_need", .jstr "b"),
   ("signature_metaphor", .jstr "c"), ("signature_sentence", .jstr "d"),
   ("top_themes", .jlist [.jstr "Identity"]),
   ("theme_snapshot", .jdict [("Identity", .jnum 5)]),
   ("from_your_words", .jstr "e"), ("what_this_says", .jstr "f"),
   ("insights", .jstr "g"), ("why_now", .jstr "h"),
   ("future_snapshot", .jstr "i"),
   ("signature_strengths", .jlist []), ("energizers", .jlist []),
   ("drainers", .jlist []), ("hidden_tensions", .jlist []),
   ("watchout", .jstr "j"), ("actions", .jlist [.jstr "act"]),
   ("if_then", .jlist []), ("one_week_plan", .jlist []),
   ("balancing_opportunity", .jstr "k"), ("keep_in_view", .jlist []),
   ("signature_week", .jlist []), ("tiny_progress_tracker", .jlist [])]

/-- Witness for claim C4 at a concrete fully-typed record. -/
theorem C4_witness :
    (normalize_report wtRecord).lookup "actions" = wtRecord.lookup "actions" :=
  C4_normalize_identity wtRecord (by decide) (by decide) "actions"

/- ------------------------------------------------------------------
Verification Gate, from `src/app.py` lines 582–607:

  line 582: if "sent_code" not in st.session_state: st.session_state.sent_code=""
  line 583: if "verified" not in st.session_state: st.session_state.verified=False
  line 591: code="".join(str(random.randint(0,9)) for _ in range(6))
  line 592: st.session_state.sent_code=code
  line 600: v=st.text_input("Verification code", max_chars=6)
  line 602: if v.strip()==st.session_state.sent_code: st.session_state.verified=True

The six random draws of line 591 are passed in as an explicit list of
naturals (each `random.randint(0,9)` result is in 0..9).  The widget of
line 600 never yields more than 6 characters (`max_chars=6`), which is
the length precondition of the check theorems.
------------------------------------------------------------------ -/

/-- Python `str.strip()` whitespace set (the ASCII part, which is all the
app's inputs can contain). -/
def isPySpace (c : Char) : Bool :=
  c == ' ' || c == '\t' || c == '\n' || c == '\r' || c == '\x0b' || c == '\x0c'

/-- Python `s.strip()` on the character list: drop leading and trailing
whitespace. -/
def stripList (l : List Char) : List Char :=
  ((l.dropWhile isPySpace).reverse.dropWhile isPySpace).reverse

/-- Python `s.strip()`. -/
def pyStrip (s : String) : String := ⟨stripList s.data⟩

/-- Model of `str(random.randint(0,9))` for one draw `d ∈ 0..9`. -/
def digitChar (d : ℕ) : Char := Char.ofNat (48 + d)

/-- Code issuance (line 591): join of the six digit draws. -/
def issueCode (ds : List ℕ) : String := ⟨ds.map digitChar⟩

/-- The Verify comparison (line 602): `v.strip()==st.session_state.sent_code`. -/
def checkCode (submitted current : String) : Bool := pyStrip submitted == current

/-- Session state of the Verification Gate. -/
structure Session where
  sent_code : String
  verified : Bool

/-- Lines 582–583: a fresh session holds the empty code, unverified. -/
def initSession : Session := ⟨"", false⟩

/-- Lines 591–592: the issue-code button overwrites `sent_code`. -/
def issueAction (s : Session) (ds : List ℕ) : Session :=
  { s with sent_code := issueCode ds }

/-- Lines 601–607: the Verify button sets the flag iff the check passes. -/
def verifyAction (s : Session) (submitted : String) : Session :=
  if checkCode submitted s.sent_code then { s with verified := true } else s

lemma dropWhile_length_le (p : Char → Bool) :
    ∀ l : List Char, (l.dropWhile p).length ≤ l.length := by
  intro l
  induction l with
  | nil => simp
  | cons a l ih =>
    rw [List.dropWhile_cons]
    split_ifs with h
    · exact le_trans ih (Nat.le_succ _)
    · simp

lemma dropWhile_eq_self_of_length (p : Char → Bool) :
    ∀ l : List Char, (l.dropWhile p).length = l.length → l.dropWhile p = l := by
  intro l
  induction l with
  | nil => intro _; rfl
  | cons a l ih =>
    intro h
    rw [List.dropWhile_cons] at h ⊢
    split_ifs with hp
    · exfalso
      rw [if_pos hp] at h
      have := dropWhile_length_le p l
      simp at h
      omega
    · rfl

lemma dropWhile_eq_self_of_no_space (p : Char → Bool) :
    ∀ l : List Char, (∀ c ∈ l, p c = false) → l.dropWhile p = l := by
  intro l h
  cases l with
  | nil => rfl
  | cons a l =>
    rw [List.dropWhile_cons, if_neg]
    rw [h a (List.mem_cons_self a l)]
    simp

lemma stripList_length_le (l : List Char) : (stripList l).length ≤ l.length := by
  unfold stripList
  calc ((l.dropWhile isPySpace).reverse.dropWhile isPySpace).reverse.length
      = ((l.dropWhile isPySpace).reverse.dropWhile isPySpace).length := by
        rw [List.length_reverse]
    _ ≤ (l.dropWhile isPySpace).reverse.length := dropWhile_length_le _ _
    _ = (l.dropWhile isPySpace).length := by rw [List.length_reverse]
    _ ≤ l.length := dropWhile_length_le _ _

lemma stripList_eq_self_of_length (l : List Char)
    (h : (stripList l).length = l.length) : stripList l = l := by
  have h1 : (l.dropWhile isPySpace).length = l.length := by
    have a1 := dropWhile_length_le isPySpace l
    have a2 := dropWhile_length_le isPySpace (l.dropWhile isPySpace).reverse
    unfold stripList at h
    rw [List.length_reverse] at h
    rw [List.length_reverse] at a2
    omega
  have h2 := dropWhile_eq_self_of_length isPySpace l h1
  have h3 : ((l.dropWhile isPySpace).reverse.dropWhile isPySpace).length =
      (l.dropWhile isPySpace).reverse.length := by
    unfold stripList at h
    rw [List.length_reverse] at h
    rw [List.length_reverse, h1]
    exact h
  have h4 := dropWhile_eq_self_of_length isPySpace _ h3
  unfold stripList
  rw [h2] at h4 ⊢
  rw [h4, List.reverse_reverse]

lemma stripList_eq_self_of_no_space (l : List Char)
    (h : ∀ c ∈ l, isPySpace c = false) : stripList l = l := by
  unfold stripList
  rw [dropWhile_eq_self_of_no_space isPySpace l h,
    dropWhile_eq_self_of_no_space isPySpace l.reverse
      (fun c hc => h c (List.mem_reverse.mp hc)),
    List.reverse_reverse]

lemma digitChar_not_space {d : ℕ} (h : d ≤ 9) : isPySpace (digitChar d) = false := by
  interval_cases d <;> decide

lemma digitChar_digit {d : ℕ} (h : d ≤ 9) :
    '0' ≤ digitChar d ∧ digitChar d ≤ '9' := by
  interval_cases d <;> exact (by decide)

/-- Claim C6: issuance from six digit draws yields a 6-character string
of decimal digits; against such a current code, a submission of at most
6 characters (the widget's `max_chars=6`) verifies exactly when it is
string-equal to the most recently issued code, and in particular any
different previously issued code is rejected. -/
theorem C6_issue_and_check :
    ∀ ds : List ℕ, ds.length = 6 → (∀ d ∈ ds, d ≤ 9) →
      (issueCode ds).length = 6 ∧
        (∀ c ∈ (issueCode ds).data, '0' ≤ c ∧ c ≤ '9') ∧
        (∀ submitted : String, submitted.length ≤ 6 →
          (checkCode submitted (issueCode ds) = true ↔ submitted = issueCode ds)) ∧
        (∀ ds2 : List ℕ, ds2.length = 6 → (∀ d ∈ ds2, d ≤ 9) →
          issueCode ds2 ≠ issueCode ds →
          checkCode (issueCode ds2) (issueCode ds) = false) := by
  intro ds hlen hdig
  have hclen : (issueCode ds).length = 6 := by
    show (ds.map digitChar).length = 6
    rw [List.length_map, hlen]
  have hcdig : ∀ c ∈ (issueCode ds).data, '0' ≤ c ∧ c ≤ '9' := by
    intro c hc
    simp only [issueCode, List.mem_map] at hc
    obtain ⟨d, hd, rfl⟩ := hc
    exact digitChar_digit (hdig d hd)
  have hiff : ∀ submitted : String, submitted.length ≤ 6 →
      (checkCode submitted (issueCode ds) = true ↔ submitted = issueCode ds) := by
    intro submitted hsub
    constructor
    · intro h
      have heq : pyStrip submitted = issueCode ds := beq_iff_eq.mp h
      have hslen : (pyStrip submitted).length = 6 := by rw [heq, hclen]
      have hle : (stripList submitted.data).length ≤ submitted.data.length :=
        stripList_length_le submitted.data
      have hfull : (stripList submitted.data).length = submitted.data.length := by
        have h1 : (stripList submitted.data).length = 6 := hslen
        have h2 : submitted.data.length ≤ 6 := hsub
        omega
      have hself : pyStrip submitted = submitted := by
        show (⟨stripList submitted.data⟩ : String) = submitted
        rw [stripList_eq_self_of_length submitted.data hfull]
      rw [← hself, heq]
    · intro h
      subst h
      have hself : pyStrip (issueCode ds) = issueCode ds := by
        show (⟨stripList (issueCode ds).data⟩ : String) = issueCode ds
        rw [stripList_eq_self_of_no_space]
        intro c hc
        simp only [issueCode, List.mem_map] at hc
        obtain ⟨d, hd, rfl⟩ := hc
        exact digitChar_not_space (hdig d hd)
      show (pyStrip (issueCode ds) == issueCode ds) = true
      rw [hself]
      exact beq_self_eq_true _
  refine ⟨hclen, hcdig, hiff, ?_⟩
  intro ds2 hlen2 hdig2 hne
  have h6 : (issueCode ds2).length ≤ 6 := by
    show (ds2.map digitChar).length ≤ 6
    rw [List.length_map, hlen2]
  cases hcc : checkCode (issueCode ds2) (issueCode ds) with
  | false => rfl
  | true => exact absurd ((hiff (issueCode ds2) h6).mp hcc) hne

/-- Witness for claim C6: the code issued from draws 1..6 verifies
against itself and rejects a different superseded code. -/
theorem C6_witness :
    checkCode "123456" (issueCode [1, 2, 3, 4, 5, 6]) = true ∧
      checkCode (issueCode [6, 5, 4, 3, 2, 1]) (issueCode [1, 2, 3, 4, 5, 6]) = false := by
  constructor
  · exact ((C6_issue_and_check [1, 2, 3, 4, 5, 6] (by decide) (by decide)).2.2.1
      "123456" (by decide)).mpr (by decide)
  · exact (C6_issue_and_check [1, 2, 3, 4, 5, 6] (by decide) (by decide)).2.2.2
      [6, 5, 4, 3, 2, 1] (by decide) (by decide) (by decide)

/-- Claim C7: before any issuance the stored code is the empty string,
and the Verify action sets the verified flag for any submission that
strips to the empty string, because the check strips before comparing. -/
theorem C7_blank_code_verifies :
    initSession.sent_code = "" ∧
      ∀ submitted : String, pyStrip submitted = "" →
        (verifyAction initSession submitted).verified = true := by
  constructor
  · rfl
  · intro submitted h
    unfold verifyAction checkCode
    have hc : (pyStrip submitted == initSession.sent_code) = true := by
      rw [h]
      exact beq_self_eq_true _
    rw [hc]
    simp

/-- Witness for claim C7: a whitespace-only submission verifies a fresh
session. -/
theorem C7_witness : (verifyAction initSession "  ").verified = true :=
  C7_blank_code_verifies.2 "  " (by decide)

/- ------------------------------------------------------------------
to_latin1, from `src/app.py` lines 337–342:

  def to_latin1(s) -> str:
      s = _as_text(s)
      if not s: return ""
      rep = em-dash/en-dash/hyphen ↦ "-", smart double quotes ↦ ASCII
            double quote, smart single quotes ↦ ASCII single quote,
            ellipsis ↦ "...", bullet ↦ "- ", no-break space ↦ " ",
            right-arrow ↦ "->"
      for a, b in rep.items(): s = s.replace(a, b)
      return s.encode("latin-1", "ignore").decode("latin-1")

On a string argument `_as_text` is the identity and the `if not s`
guard returns the empty string unchanged.  Every replacement key is a
single character and every replacement value is ASCII; the only key
occurring in any replacement value is the hyphen, whose replacement is
itself, so the sequence of whole-string replaces equals the
per-character expansion `repChar` below.  The latin-1 encode with
"ignore" drops exactly the characters above U+00FF.
------------------------------------------------------------------ -/

/-- Per-character expansion of the replacement table of `to_latin1`. -/
def repChar (c : Char) : List Char :=
  if c = '—' then ['-']
  else if c = '–' then ['-']
  else if c = '-' then ['-']
  else if c = '“' then ['"']
  else if c = '”' then ['"']
  else if c = '‘' then ['\x27']
  else if c = '’' then ['\x27']
  else if c = '…' then ['.', '.', '.']
  else if c = '•' then ['-', ' ']
  else if c = ' ' then [' ']
  else if c = '→' then ['-', '>']
  else [c]

/-- The keys of the replacement table. -/
def repKeys : List Char :=
  ['—', '–', '-', '“', '”', '‘', '’',
   '…', '•', ' ', '→']

/-- Embedding of `to_latin1` (`src/app.py` lines 337–342) on strings. -/
def to_latin1 (s : String) : String :=
  ⟨(s.data.flatMap repChar).filter fun c => decide (c.toNat ≤ 255)⟩

lemma repChar_eq_self {c : Char} (h : c ∉ repKeys) : repChar c = [c] := by
  simp only [repKeys, List.mem_cons, List.not_mem_nil, or_false, not_or] at h
  obtain ⟨h1, h2, h3, h4, h5, h6, h7, h8, h9, h10, h11⟩ := h
  simp [repChar, h1, h2, h3, h4, h5, h6, h7, h8, h9, h10, h11]

lemma repChar_ascii_of_key {c : Char} (h : c ∈ repKeys) :
    ∀ c2 ∈ repChar c, c2.toNat ≤ 127 := by
  fin_cases h <;> decide

lemma repChar_ascii_of_ascii {c : Char} (h : c.toNat ≤ 127) :
    ∀ c2 ∈ repChar c, c2.toNat ≤ 127 := by
  by_cases hk : c ∈ repKeys
  · exact repChar_ascii_of_key hk
  · rw [repChar_eq_self hk]
    intro c2 hc2
    simp only [List.mem_singleton] at hc2
    subst hc2
    exact h

/-- Claim C9: the sanitizer never lets a character above the latin-1
range through (so rendering is total: unsupported characters are
dropped, not raised on); each special glyph of the table is substituted
by its ASCII equivalent; and on text made only of ASCII plus table
glyphs nothing is dropped — the output is exactly the per-character
ASCII expansion. -/
theorem C9_sanitizer_total_ascii :
    (∀ s : String, ∀ c ∈ (to_latin1 s).data, c.toNat ≤ 255) ∧
      (to_latin1 "—" = "-" ∧ to_latin1 "–" = "-" ∧
        to_latin1 "“" = "\"" ∧ to_latin1 "”" = "\"" ∧
        to_latin1 "‘" = "\x27" ∧ to_latin1 "’" = "\x27" ∧
        to_latin1 "…" = "..." ∧ to_latin1 "•" = "- " ∧
        to_latin1 " " = " " ∧ to_latin1 "→" = "->") ∧
      (∀ s : String, (∀ c ∈ s.data, c.toNat ≤ 127 ∨ c ∈ repKeys) →
        (to_latin1 s).data = s.data.flatMap repChar ∧
          ∀ c ∈ (to_latin1 s).data, c.toNat ≤ 127) := by
  refine ⟨?_, by decide, ?_⟩
  · intro s c hc
    have h := List.mem_filter.mp hc
    exact of_decide_eq_true h.2
  · intro s hs
    have hall : ∀ c2 ∈ s.data.flatMap repChar, c2.toNat ≤ 127 := by
      intro c2 hc2
      obtain ⟨c, hc, hcc⟩ := List.mem_flatMap.mp hc2
      rcases hs c hc with h | h
      · exact repChar_ascii_of_ascii h c2 hcc
      · exact repChar_ascii_of_key h c2 hcc
    have hfilter : (s.data.flatMap repChar).filter (fun c => decide (c.toNat ≤ 255)) =
        s.data.flatMap repChar := by
      apply List.filter_eq_self.mpr
      intro a ha
      exact decide_eq_true (le_trans (hall a ha) (by omega))
    constructor
    · exact hfilter
    · intro c hc
      have h := List.mem_filter.mp hc
      exact hall c h.1

/-- Witness for claim C9: text with an em-dash, a smart quote and a
bullet sanitizes to its plain-ASCII expansion with nothing dropped. -/
theorem C9_witness :
    (to_latin1 "a—b‘c•").data =
      ("a—b‘c•").data.flatMap repChar :=
  (C9_sanitizer_total_ascii.2.2 "a—b‘c•" (by decide)).1

/- ------------------------------------------------------------------
If/then rendering, from `src/app.py` lines 417–442:

  def _write_if_then(pdf, item):
      if isinstance(item, dict):
          if_text = str(item.get("if","")).strip()
          then_text = str(item.get("then","")).strip()
          s = f"If (if_text) then (then_text)"
      else:
          s = str(item or "")
      low = s.lower()
      if not low.startswith("if "):
          _p(pdf, f"• (s)", 11); return
      idx = low.find(" then ")
      if idx == -1:
          bullet cell, bold "If", rest of s from index 2, line break
      before = s[3:idx]; after = s[idx+6:]
      bullet cell, bold "If", plain " "+before+" ", bold "Then",
      plain " "+after, line break

The dict shape reads keys "if" and "then".  Every emitted fragment goes
through `to_latin1`.  The PDF side effects are modelled as a token list:
one token per `multi_cell` (para), `cell`, `write` and `ln` call, each
with the font style and size set at that point.
------------------------------------------------------------------ -/

/-- One text-emitting PDF call of the renderer. -/
inductive PdfTok where
  | para (style : String) (size : ℕ) (text : String) : PdfTok
  | cell (style : String) (size : ℕ) (text : String) : PdfTok
  | write (style : String) (size : ℕ) (text : String) : PdfTok
  | lnbreak (h : ℕ) : PdfTok
deriving DecidableEq

/-- Python repr of a value (the escaping of quotes inside nested strings
is not modelled; no value of this app exercises it). -/
def pyRepr : JVal → String
  | .jnull => "None"
  | .jstr s => "\x27" ++ s ++ "\x27"
  | .jnum n => toString n
  | .jlist xs => "[" ++ String.intercalate ", " (xs.attach.map fun x => pyRepr x.1) ++ "]"
  | .jdict kvs => "\x7b" ++ String.intercalate ", "
      (kvs.attach.map fun p => "\x27" ++ p.1.1 ++ "\x27: " ++ pyRepr p.1.2) ++ "\x7d"
decreasing_by
  · have h := List.sizeOf_lt_of_mem x.2
    simp only [JVal.jlist.sizeOf_spec]
    omega
  · have h := List.sizeOf_lt_of_mem p.2
    obtain ⟨⟨a, b⟩, hp⟩ := p
    simp only [Prod.mk.sizeOf_spec] at h
    simp only [JVal.jdict.sizeOf_spec]
    omega

/-- Python `str()` of a value: identity on strings, `None`/digits for
atoms, repr rendering for containers. -/
def pyStr : JVal → String
  | .jnull => "None"
  | .jstr s => s
  | .jnum n => toString n
  | v => pyRepr v

/-- Python truthiness of a value (`item or ""`). -/
def isTruthy : JVal → Bool
  | .jnull => false
  | .jstr s => !(s == "")
  | .jnum n => !(n == 0)
  | .jlist xs => !xs.isEmpty
  | .jdict kvs => !kvs.isEmpty

/-- Python `s.lower()` (ASCII case, all this code compares). -/
def pyLower (s : String) : String := ⟨s.data.map Char.toLower⟩

/-- Python `s[n:]`. -/
def sDrop (s : String) (n : ℕ) : String := ⟨s.data.drop n⟩

/-- Python `s[a:b]` (for 0 ≤ a ≤ b ≤ len). -/
def sSlice (s : String) (a b : ℕ) : String := ⟨(s.data.take b).drop a⟩

/-- Python `hay.find(needle)` scan, reporting the first match index. -/
def strFindAux (needle : List Char) : List Char → ℕ → Option ℕ
  | [], i => if needle = [] then some i else none
  | h :: t, i =>
      if needle.isPrefixOf (h :: t) then some i else strFindAux needle t (i + 1)

/-- Python `hay.find(needle)` (`none` for -1). -/
def strFind (hay needle : List Char) : Option ℕ := strFindAux needle hay 0

/-- The string `s` built by the first half of `_write_if_then`. -/
def if_then_string (item : JVal) : String :=
  match item with
  | .jdict kvs =>
      "If " ++ pyStrip (pyStr (lookupD kvs "if" (.jstr ""))) ++ " then " ++
        pyStrip (pyStr (lookupD kvs "then" (.jstr "")))
  | v => pyStr (if isTruthy v then v else .jstr "")

/-- The rendering half of `_write_if_then` (lines 425–442). -/
def render_if_then (s : String) : List PdfTok :=
  let low := pyLower s
  if !("if ".data.isPrefixOf low.data) then
    [PdfTok.para "" 11 (to_latin1 ("• " ++ s))]
  else
    match strFind low.data (" then ".data) with
    | none =>
        [PdfTok.cell "" 11 (to_latin1 "• "), PdfTok.write "B" 11 (to_latin1 "If"),
         PdfTok.write "" 11 (to_latin1 (sDrop s 2)), PdfTok.lnbreak 6]
    | some idx =>
        [PdfTok.cell "" 11 (to_latin1 "• "), PdfTok.write "B" 11 (to_latin1 "If"),
         PdfTok.write "" 11 (to_latin1 (" " ++ sSlice s 3 idx ++ " ")),
         PdfTok.write "B" 11 (to_latin1 "Then"),
         PdfTok.write "" 11 (to_latin1 (" " ++ sDrop s (idx + 6))),
         PdfTok.lnbreak 6]

/-- Embedding of `_write_if_then` (`src/app.py` lines 417–442). -/
def write_if_then (item : JVal) : List PdfTok := render_if_then (if_then_string item)

lemma append_ne_empty_left (s t : String) (h : s ≠ "") : s ++ t ≠ "" := by
  intro hc
  apply h
  have hd := congrArg String.data hc
  rw [String.data_append] at hd
  have hnil : s.data = [] := (List.append_eq_nil.mp hd).1
  cases s with
  | mk d =>
    simp only at hnil
    subst hnil
    rfl

lemma strFindAux_some (needle : List Char) :
    ∀ (hay : List Char) (i : ℕ), (∃ a b, hay = a ++ needle ++ b) →
      ∃ j, strFindAux needle hay i = some j := by
  intro hay
  induction hay with
  | nil =>
    intro i h
    obtain ⟨a, b, hab⟩ := h
    have ha : a = [] ∧ needle ++ b = [] := List.append_eq_nil.mp (by
      rw [List.append_assoc] at hab
      exact hab.symm)
    have hn : needle = [] := (List.append_eq_nil.mp ha.2).1
    exact ⟨i, by simp [strFindAux, hn]⟩
  | cons h t ih =>
    intro i hex
    obtain ⟨a, b, hab⟩ := hex
    unfold strFindAux
    by_cases hp : needle.isPrefixOf (h :: t)
    · exact ⟨i, by rw [if_pos hp]⟩
    · rw [if_neg hp]
      cases a with
      | nil =>
        exfalso
        apply hp
        apply List.isPrefixOf_iff_prefix.mpr
        refine ⟨b, ?_⟩
        simpa using hab.symm
      | cons x a2 =>
        have hx : t = a2 ++ needle ++ b := by
          have := hab
          simp only [List.cons_append] at this
          exact (List.cons.inj this).2
        exact ih (i + 1) ⟨a2, b, hx⟩

/-- Claim C10, counterexample: an item given literally as a
condition/consequence pair renders with empty slots after the
emphasized keywords (the code reads the keys "if"/"then"), which is not
the output of the plain string "If X then Y". -/
theorem C10_counterexample :
    write_if_then (JVal.jdict [("condition", JVal.jstr "X"), ("consequence", JVal.jstr "Y")]) ≠
      write_if_then (JVal.jstr "If X then Y") := by
  decide

/-- Claim C10 (amended): an if/then item given as the plain string
"If c then q" and the same item given as the explicit structured pair
with keys "if" ↦ c and "then" ↦ q render to identical output, with
the keywords If and Then written in bold distinctly from the plain-style
surrounding fragments, whenever c and q carry no surrounding
whitespace. -/
theorem C10_if_then_equiv :
    ∀ c q : String, pyStrip c = c → pyStrip q = q →
      (write_if_then (JVal.jstr ("If " ++ c ++ " then " ++ q)) =
          write_if_then (JVal.jdict [("if", JVal.jstr c), ("then", JVal.jstr q)])) ∧
        PdfTok.write "B" 11 "If" ∈
          write_if_then (JVal.jstr ("If " ++ c ++ " then " ++ q)) ∧
        PdfTok.write "B" 11 "Then" ∈
          write_if_then (JVal.jstr ("If " ++ c ++ " then " ++ q)) := by
  intro c q hc hq
  have hne : ("If " ++ c ++ " then " ++ q) ≠ "" := by
    have h1 : ("If " ++ c) ≠ "" := append_ne_empty_left "If " c (by decide)
    have h2 : ("If " ++ c ++ " then ") ≠ "" := append_ne_empty_left _ " then " h1
    exact append_ne_empty_left _ q h2
  have ht : isTruthy (JVal.jstr ("If " ++ c ++ " then " ++ q)) = true := by
    show (!(("If " ++ c ++ " then " ++ q) == "")) = true
    rw [beq_false_of_ne hne]
    rfl
  have hs : if_then_string (JVal.jstr ("If " ++ c ++ " then " ++ q)) =
      "If " ++ c ++ " then " ++ q := by
    show pyStr (if isTruthy (JVal.jstr ("If " ++ c ++ " then " ++ q)) = true
        then JVal.jstr ("If " ++ c ++ " then " ++ q) else JVal.jstr "") =
      "If " ++ c ++ " then " ++ q
    rw [if_pos ht]
    rfl
  have hd : if_then_string (JVal.jdict [("if", JVal.jstr c), ("then", JVal.jstr q)]) =
      "If " ++ c ++ " then " ++ q := by
    show "If " ++ pyStrip c ++ " then " ++ pyStrip q = "If " ++ c ++ " then " ++ q
    rw [hc, hq]
  have heq : write_if_then (JVal.jstr ("If " ++ c ++ " then " ++ q)) =
      write_if_then (JVal.jdict [("if", JVal.jstr c), ("then", JVal.jstr q)]) := by
    unfold write_if_then
    rw [hs, hd]
  have hlow : (pyLower ("If " ++ c ++ " then " ++ q)).data =
      "if ".data ++ (c.data.map Char.toLower ++
        (" then ".data ++ q.data.map Char.toLower)) := by
    show ("If " ++ c ++ " then " ++ q).data.map Char.toLower = _
    rw [String.data_append, String.data_append, String.data_append]
    rw [List.map_append, List.map_append, List.map_append]
    rw [show ("If ".data.map Char.toLower) = "if ".data from by decide,
      show (" then ".data.map Char.toLower) = " then ".data from by decide]
    simp [List.append_assoc]
  have hpre : ("if ".data.isPrefixOf (pyLower ("If " ++ c ++ " then " ++ q)).data) = true := by
    apply List.isPrefixOf_iff_prefix.mpr
    rw [hlow]
    exact List.prefix_append _ _
  obtain ⟨j, hj⟩ := strFindAux_some (" then ".data)
    (pyLower ("If " ++ c ++ " then " ++ q)).data 0
    ⟨"if ".data ++ c.data.map Char.toLower, q.data.map Char.toLower, by
      rw [hlow]
      simp [List.append_assoc]⟩
  have hfind : strFind (pyLower ("If " ++ c ++ " then " ++ q)).data (" then ".data) =
      some j := hj
  have hIf : to_latin1 "If" = "If" := by decide
  have hThen : to_latin1 "Then" = "Then" := by decide
  refine ⟨heq, ?_, ?_⟩
  · unfold write_if_then
    rw [hs]
    simp only [render_if_then, hpre, Bool.not_true, if_neg (by simp : ¬false = true), hfind]
    simp [hIf]
  · unfold write_if_then
    rw [hs]
    simp only [render_if_then, hpre, Bool.not_true, if_neg (by simp : ¬false = true), hfind]
    simp [hThen]

/-- Witness for claim C10 (amended) at c = "X", q = "Y". -/
theorem C10_witness :
    write_if_then (JVal.jstr ("If " ++ "X" ++ " then " ++ "Y")) =
      write_if_then (JVal.jdict [("if", JVal.jstr "X"), ("then", JVal.jstr "Y")]) :=
  (C10_if_then_equiv "X" "Y" (by decide) (by decide)).1

/- ------------------------------------------------------------------
Deterministic fallback narrative generator, from `src/app.py`
lines 147–200 (THEMES, LABELS) and 258–324 (rule_based_full_report),
and its call site, lines 610–613:

  ai_data = ai_full_report(...) if _HAS_OPENAI else {}
  if not ai_data:
      ai_data = rule_based_full_report(first_name, scores, total, user_words)

`rule_based_full_report` touches no external port: it is a pure function
of its four arguments (`total` is accepted and unused, as in the
source).  Its only partial operations are the `top_names[0]` and
`top_names[1]` indexings, modelled by the `match`; every ScoreSet with
at least two themes takes the `some` branch.
------------------------------------------------------------------ -/

/-- The six fixed themes, in declaration order (lines 147–154). -/
def THEMES : List String :=
  ["Purpose & Identity", "Social Health & Community Connection", "Health & Vitality",
   "Learning & Growth", "Adventure & Exploration", "Giving Back"]

/-- The abbreviated chart labels (lines 193–200). -/
def LABELS : List (String × String) :=
  [("Purpose & Identity", "Identity"),
   ("Social Health & Community Connection", "Connection"),
   ("Health & Vitality", "Vitality"),
   ("Learning & Growth", "Growth"),
   ("Adventure & Exploration", "Adventure"),
   ("Giving Back", "Contribution")]

/-- Python `LABELS.get(k, k)`. -/
def label (k : String) : String := (LABELS.lookup k).getD k

/-- The returned dict literal of `rule_based_full_report` (lines
263–324); `t0`, `t1` are `top_names[0]`, `top_names[1]`. -/
def reportFields (first_name user_words : String) (scores : List (String × ℤ))
    (t0 t1 : String) (top_names low_names : List String) : List (String × JVal) :=
  [("archetype", .jstr "Grounded Pathfinder"),
   ("core_need", .jstr "Clarity of identity beyond work and steady weekly anchors."),
   ("signature_metaphor",
    .jstr "A lighthouse on a protected shore: steady, visible, guiding without haste."),
   ("signature_sentence",
    .jstr ("I choose a calm, clear rhythm after work, anchored by " ++ t0 ++
      " and " ++ t1 ++ ".")),
   ("top_themes", .jlist (top_names.map JVal.jstr)),
   ("theme_snapshot", .jdict (scores.map fun p => (label p.1, JVal.jnum p.2))),
   ("from_your_words", .jstr (if user_words = "" then "—" else user_words)),
   ("what_this_says",
    .jstr ("Strong " ++ String.intercalate ", " top_names ++ " form a stable base. " ++
      "Gently lift " ++ String.intercalate ", " low_names ++
      " with low-risk experiments to round out readiness.")),
   ("insights",
    .jstr "Use identity as anchor, connection for accountability, and vitality to power consistent small moves."),
   ("why_now",
    .jstr "Transitions stick when started early and practiced in small cycles you can keep."),
   ("future_snapshot",
    .jstr ("Hi " ++ (if first_name = "" then "there" else first_name) ++
      " — a month from now you have one weekly social anchor, " ++
      "a learning block you enjoy, and a small way you contribute that feels useful.")),
   ("signature_strengths",
    .jlist [.jstr "Reliability", .jstr "Discernment", .jstr "Boundary sense",
      .jstr "Follow-through"]),
   ("energizers",
    .jlist [.jstr "Meaningful 1:1 connections", .jstr "Short focused sessions",
      .jstr "Clear weekly anchors"]),
   ("drainers",
    .jlist [.jstr "Vague commitments", .jstr "Overscheduling",
      .jstr "Low-meaning social time"]),
   ("hidden_tensions",
    .jlist [.jstr "Freedom vs structure", .jstr "Helping vs overcommitting",
      .jstr "Comfort vs growth"]),
   ("watchout", .jstr "Don’t let calm become avoidance of tiny useful risks."),
   ("actions",
    .jlist [.jstr "Pick two weekly anchors: one social, one learning.",
      .jstr "Choose one micro-contribution (30–60 min).",
      .jstr "Name two identities to strengthen; schedule one small rep."]),
   ("if_then",
    .jlist [.jstr "If a request feels fuzzy, then ask for a clear why/when before yes.",
      .jstr "If energy dips, then shorten the session and finish with a visible win.",
      .jstr "If you skip a day, then restart with your smallest anchor next morning."]),
   ("one_week_plan",
    .jlist [.jstr "Day 1: Draft your ideal post-work day; pick anchors.",
      .jstr "Day 2: Schedule the first anchor; invite one person.",
      .jstr "Day 3: Add a 30-minute learning block.",
      .jstr "Day 4: Do a micro-contribution; note how it felt.",
      .jstr "Day 5: Light exploration (new place/group) for 30 minutes.",
      .jstr "Day 6: Review energy; tweak anchors.",
      .jstr "Day 7: Celebrate a small win; set next week."]),
   ("balancing_opportunity",
    .jstr ("Lift " ++ String.intercalate ", " low_names ++
      " with tiny, low-cost experiments aligned to your values.")),
   ("keep_in_view",
    .jlist [.jstr "One-sentence mission", .jstr "Top 3 values", .jstr "Morning ritual",
      .jstr "One true yes", .jstr "Boundary checklist", .jstr "Weekly review"]),
   ("signature_week",
    .jlist [
      .jdict [("day", .jstr "Monday"), ("focus", .jstr "Health + Connection"),
        ("plan", .jstr "Morning walk, midday call; evening light reading.")],
      .jdict [("day", .jstr "Tuesday"), ("focus", .jstr "Learning"),
        ("plan", .jstr "30-minute short course or book; try a new healthy recipe.")],
      .jdict [("day", .jstr "Wednesday"), ("focus", .jstr "Purpose Project"),
        ("plan", .jstr "90 minutes on a hands-on project tied to identity.")],
      .jdict [("day", .jstr "Thursday"), ("focus", .jstr "Social"),
        ("plan", .jstr "Attend a local class/group; introduce yourself to one person.")],
      .jdict [("day", .jstr "Friday"), ("focus", .jstr "Restorative"),
        ("plan", .jstr "Gentle movement + intentional call with family/friend.")],
      .jdict [("day", .jstr "Saturday"), ("focus", .jstr "Adventure"),
        ("plan", .jstr "Half-day outing: hike, museum, nearby town.")],
      .jdict [("day", .jstr "Sunday"), ("focus", .jstr "Reflection & Planning"),
        ("plan", .jstr "Short journaling; plan next week’s small goals.")]]),
   ("tiny_progress_tracker",
    .jlist [
      .jdict [("metric", .jstr "Minutes of movement per day"), ("target", .jstr "20–40")],
      .jdict [("metric", .jstr "Social touchpoints per week"), ("target", .jstr "2")],
      .jdict [("metric", .jstr "Learning sessions per week"),
        ("target", .jstr "3 × 30 minutes")],
      .jdict [("metric", .jstr "Micro-adventures per month"), ("target", .jstr "1")],
      .jdict [("metric", .jstr "Daily mood rating"),
        ("target", .jstr "1–5 (note one quick reason)")],
      .jdict [("metric", .jstr "One purposeful accomplishment per week"),
        ("target", .jstr "1 (small project or meaningful outreach)")]])]

/-- Embedding of `rule_based_full_report` (`src/app.py` lines 258–324).
The source indexes `top_names[0]` / `top_names[1]`, which raises on a
ScoreSet of fewer than two themes; that partiality is the `none` case. -/
def rule_based_full_report (first_name : String) (scores : List (String × ℤ))
    (total : ℤ) (user_words : String) : Option (List (String × JVal)) :=
  let top := sortedByScoreDesc scores
  let low := sortedByScoreAsc scores
  let top_names := (top.take 3).map fun p => label p.1
  let low_names := (low.take 2).map fun p => label p.1
  match top_names with
  | t0 :: t1 :: _ =>
      some (reportFields first_name user_words scores t0 t1 top_names low_names)
  | _ => none

/-- A report field value counts as populated when it is a nonempty
string, a nonempty list, a nonempty dict, or a number. -/
def nonemptyValB : JVal → Bool
  | .jnull => false
  | .jstr s => !(s == "")
  | .jnum _ => true
  | .jlist xs => !xs.isEmpty
  | .jdict kvs => !kvs.isEmpty

/-- A fully-populated ReportContent: exactly the expected keys, each
with a populated value. -/
def populatedB (r : List (String × JVal)) : Bool :=
  (r.map Prod.fst == allKeys) && r.all fun p => nonemptyValB p.2

/-- Populated result: a `some` holding a fully-populated record. -/
def populatedOpt : Option (List (String × JVal)) → Bool
  | some r => populatedB r
  | none => false

/-- Embedding of the full-report strategy selection (`src/app.py`
lines 610–613): the AI result is consulted only when the port is
configured, and an empty result falls back to the deterministic
generator. -/
def full_report_data (hasOpenAI : Bool) (aiResult : List (String × JVal))
    (first_name : String) (scores : List (String × ℤ)) (total : ℤ)
    (user_words : String) : Option (List (String × JVal)) :=
  let ai := if hasOpenAI then aiResult else []
  if ai.isEmpty then rule_based_full_report first_name scores total user_words
  else some ai

lemma jstr_nonempty_of_ne (s : String) (h : s ≠ "") :
    nonemptyValB (.jstr s) = true := by
  show (!(s == "")) = true
  rw [beq_false_of_ne h]
  rfl

lemma jstr_append_nonempty (s t : String) (h : s ≠ "") :
    nonemptyValB (.jstr (s ++ t)) = true :=
  jstr_nonempty_of_ne (s ++ t) (append_ne_empty_left s t h)

lemma reportFields_populated (fn uw : String) (scores : List (String × ℤ))
    (t0 t1 : String) (rest low_names : List String) (hne : scores ≠ []) :
    populatedB (reportFields fn uw scores t0 t1 (t0 :: t1 :: rest) low_names) = true := by
  unfold populatedB reportFields
  rw [Bool.and_eq_true]
  constructor
  · rfl
  · rw [List.all_eq_true]
    intro p hp
    fin_cases hp <;>
      first
        | decide
        | rfl
        | (apply jstr_append_nonempty
           repeat' apply append_ne_empty_left
           decide)
        | (rcases scores with _ | ⟨p0, ps⟩
           · exact absurd rfl hne
           · rfl)
        | (split_ifs with huw
           · decide
           · exact jstr_nonempty_of_ne _ huw)

/-- Claim C5: for every ScoreSet over the six fixed themes the
deterministic fallback generator returns (never raises) a
fully-populated ReportContent, and — the port being absent — the
strategy selection returns exactly that fallback whatever the
text-generation port would have produced. -/
theorem C5_fallback_total_populated :
    ∀ (first_name user_words : String) (total : ℤ) (scores : List (String × ℤ)),
      scores.map Prod.fst = THEMES →
      populatedOpt (rule_based_full_report first_name scores total user_words) = true ∧
        ∀ aiResult, full_report_data false aiResult first_name scores total user_words =
          rule_based_full_report first_name scores total user_words := by
  intro fn uw total scores hthemes
  have hlen : scores.length = 6 := by
    have h := congrArg List.length hthemes
    simpa using h
  have hne : scores ≠ [] := by
    intro h
    rw [h] at hlen
    simp at hlen
  constructor
  · have htoplen : (sortedByScoreDesc scores).length = 6 := by
      show (List.insertionSort scoreGe scores).length = 6
      rw [List.length_insertionSort, hlen]
    have htn : (((sortedByScoreDesc scores).take 3).map fun p => label p.1).length = 3 := by
      rw [List.length_map, List.length_take, htoplen]
      decide
    obtain ⟨t0, t1, rest, htn3⟩ : ∃ t0 t1 rest,
        (((sortedByScoreDesc scores).take 3).map fun p => label p.1) =
          t0 :: t1 :: rest := by
      cases h : (((sortedByScoreDesc scores).take 3).map fun p => label p.1) with
      | nil => rw [h] at htn; simp at htn
      | cons a l =>
        cases l with
        | nil => rw [h] at htn; simp at htn
        | cons b l2 => exact ⟨a, b, l2, rfl⟩
    simp only [rule_based_full_report]
    rw [htn3]
    show populatedB (reportFields fn uw scores t0 t1 (t0 :: t1 :: rest) _) = true
    exact reportFields_populated fn uw scores t0 t1 rest _ hne
  · intro aiResult
    rfl

/-- Witness for claim C5 at the all-fives ScoreSet over the six themes. -/
theorem C5_witness :
    populatedOpt (rule_based_full_report "Ann"
      [("Purpose & Identity", 5), ("Social Health & Community Connection", 5),
       ("Health & Vitality", 5), ("Learning & Growth", 5),
       ("Adventure & Exploration", 5), ("Giving Back", 5)] 5 "") = true :=
  (C5_fallback_total_populated "Ann" "" 5
    [("Purpose & Identity", 5), ("Social Health & Community Connection", 5),
     ("Health & Vitality", 5), ("Learning & Growth", 5),
     ("Adventure & Exploration", 5), ("Giving Back", 5)] (by decide)).1

end LMW
